import Mathlib

/-!
Verification of the rule predicate evaluator (context-based rule filtering
engine): the `operatorsPredicate` table, `isContextValid`, `validateRule`
and `validateRules` functions, shallowly embedded over a model `JSValue`
of the JavaScript runtime values the engine manipulates.
-/

namespace Medusa

/-- Model of the JavaScript values that flow through the rule engine:
strings, numbers (restricted to integers: the engine's callers supply
integer-valued numeric fields, and no claim involves fractional values;
`NaN` is represented by `Option.none` at the coercion level, not as a
value), booleans, `null`, `undefined`, arrays and plain objects. -/
inductive JSValue where
  | str : String → JSValue
  | num : Int → JSValue
  | bool : Bool → JSValue
  | null : JSValue
  | undefined : JSValue
  | arr : List JSValue → JSValue
  | obj : List (String × JSValue) → JSValue

mutual

/-- Model of JavaScript `ToString` on the values of `JSValue`:
numbers print in decimal, arrays join their elements with `,`
(with `null`/`undefined` elements printed as the empty string, per
`Array.prototype.join`), plain objects print as `[object Object]`. -/
def jsToString : JSValue → String
  | .str s => s
  | .num n => toString n
  | .bool b => if b then "true" else "false"
  | .null => "null"
  | .undefined => "undefined"
  | .arr l => String.intercalate "," (jsJoinList l)
  | .obj _ => "[object Object]"

/-- Elementwise string conversion used by `Array.prototype.join`:
`null` and `undefined` elements become the empty string. -/
def jsJoinList : List JSValue → List String
  | [] => []
  | v :: vs =>
    (match v with
      | .null => ""
      | .undefined => ""
      | v' => jsToString v') :: jsJoinList vs

end

/-- Split a character list at every occurrence of the separator `c`
(the single-character case of `String.splitOn`, restated structurally). -/
def splitOnChar (c : Char) : List Char → List (List Char)
  | [] => [[]]
  | x :: xs =>
    if x = c then [] :: splitOnChar c xs
    else
      match splitOnChar c xs with
      | [] => [[x]]
      | h :: t => (x :: h) :: t

/-- Digits of a decimal numeral to a natural number. -/
def digitsToNat (l : List Char) : Nat :=
  l.foldl (fun acc c => acc * 10 + (c.toNat - 48)) 0

/-- Parse a non-empty all-digit character list. -/
def parseDigits (l : List Char) : Option Nat :=
  if l ≠ [] ∧ l.all Char.isDigit then some (digitsToNat l) else none

/-- JavaScript whitespace as far as the modelled string fragment needs:
space, tab, newline, carriage return. -/
def isJSWhitespace (c : Char) : Bool :=
  c = ' ' ∨ c = '\t' ∨ c = '\n' ∨ c = '\r'

/-- Strip leading and trailing whitespace. -/
def jsTrim (l : List Char) : List Char :=
  ((l.dropWhile isJSWhitespace).reverse.dropWhile isJSWhitespace).reverse

/-- Model of JavaScript string-to-number coercion (`ToNumber` on strings),
restricted to the fragment the engine's inputs exercise: surrounding
whitespace is trimmed, the empty string coerces to `0`, an optional sign
followed by decimal digits coerces to the corresponding integer, and
every other string coerces to `NaN` (modelled as `none`). Fractional,
exponent, hexadecimal and `Infinity` numerals are outside the modelled
fragment and also map to `none`. -/
def strToNumber (s : String) : Option Int :=
  match jsTrim s.data with
  | [] => some 0
  | '-' :: rest => (parseDigits rest).map (fun n => -(n : Int))
  | '+' :: rest => (parseDigits rest).map (fun n => (n : Int))
  | t => (parseDigits t).map (fun n => (n : Int))

/-- Model of JavaScript `Number(v)` (`ToNumber`): `none` stands for `NaN`.
Arrays coerce through their joined string form (`ToPrimitive` then
`ToNumber`); plain objects coerce to `[object Object]`, hence `NaN`. -/
def toNumber : JSValue → Option Int
  | .num n => some n
  | .str s => strToNumber s
  | .bool b => some (if b then 1 else 0)
  | .null => some 0
  | .undefined => none
  | .arr l => strToNumber (jsToString (.arr l))
  | .obj _ => none

/-- Is `y` a (proleptic Gregorian) leap year? -/
def isLeapYear (y : Int) : Bool :=
  (y % 4 = 0 ∧ y % 100 ≠ 0) ∨ y % 400 = 0

/-- Number of days in month `m` of year `y`. -/
def daysInMonth (y m : Int) : Int :=
  if m = 2 then (if isLeapYear y then 29 else 28)
  else if m = 4 ∨ m = 6 ∨ m = 9 ∨ m = 11 then 30
  else 31

/-- Days between 1970-01-01 and the civil date `(y, m, d)`
(Howard Hinnant's `days_from_civil` algorithm). -/
def daysFromCivil (y m d : Int) : Int :=
  let y' := if m ≤ 2 then y - 1 else y
  let era := (if y' ≥ 0 then y' else y' - 399) / 400
  let yoe := y' - era * 400
  let doy := (153 * (if m > 2 then m - 3 else m + 9) + 2) / 5 + d - 1
  let doe := yoe * 365 + yoe / 4 - yoe / 100 + doy
  era * 146097 + doe - 719468

/-- Parse a character list of exactly `k` decimal digits. -/
def parseFixedDigits (k : Nat) (l : List Char) : Option Nat :=
  if l.length = k ∧ l.all Char.isDigit then some (digitsToNat l) else none

/-- Parse a date-only string of the ECMAScript Date Time String Format:
`YYYY`, `YYYY-MM` or `YYYY-MM-DD`, with the month in `01`–`12` and the
day valid for the month (per `Date.parse`, which yields `NaN` for
out-of-range components such as `2024-02-30`). -/
def parseDateOnly (s : String) : Option (Int × Int × Int) :=
  match splitOnChar '-' s.data with
  | [ys] => do
    let y ← parseFixedDigits 4 ys
    pure ((y : Int), 1, 1)
  | [ys, ms] => do
    let y ← parseFixedDigits 4 ys
    let m ← parseFixedDigits 2 ms
    if 1 ≤ m ∧ m ≤ 12 then pure ((y : Int), (m : Int), 1) else none
  | [ys, ms, ds] => do
    let y ← parseFixedDigits 4 ys
    let m ← parseFixedDigits 2 ms
    let d ← parseFixedDigits 2 ds
    if 1 ≤ m ∧ m ≤ 12 ∧ 1 ≤ (d : Int) ∧ (d : Int) ≤ daysInMonth y m then
      pure ((y : Int), (m : Int), (d : Int))
    else none
  | _ => none

/-- Model of JavaScript `Date.parse` restricted to the portion the
ECMAScript standard mandates: date-only forms of the Date Time String
Format, interpreted as UTC midnight, returning the time value in
milliseconds since the epoch. Strings outside this grammar (including
date-time forms with a time part, which no engine input uses) are
modelled as unparseable (`none`, i.e. `NaN`). -/
def datetimeParse (s : String) : Option Int :=
  (parseDateOnly s).map (fun ymd => daysFromCivil ymd.1 ymd.2.1 ymd.2.2 * 86400000)

/-- Model of JavaScript strict equality (`===`) on `JSValue`. Arrays and
plain objects compare by reference in JavaScript; in this engine a rule's
literal value and a context-resolved value are always distinct objects, so
the model makes `===` on arrays/objects `false`. -/
def strictEq : JSValue → JSValue → Bool
  | .str a, .str b => a = b
  | .num a, .num b => a = b
  | .bool a, .bool b => a = b
  | .null, .null => true
  | .undefined, .undefined => true
  | _, _ => false

/-- Model of `Array.prototype.includes` (SameValueZero membership; with no
`NaN` value in the model this coincides with `===`). -/
def jsIncludes (l : List JSValue) (v : JSValue) : Bool :=
  l.any (fun x => strictEq x v)

/-- Source: `const isDate = (str) => !isNaN(Date.parse(str))`. `Date.parse`
converts its argument to a string first. -/
def isDate (v : JSValue) : Bool :=
  (datetimeParse (jsToString v)).isSome

/-- Time value (ms since the epoch) of `new Date(v)`; `none` is an invalid
date (`NaN` time value). A number argument is taken as a millisecond count;
other primitives go through `ToString`/`Date.parse` (booleans and `null`
through `ToNumber`). -/
def jsNewDate : JSValue → Option Int
  | .num n => some n
  | .bool b => some (if b then 1 else 0)
  | .null => some 0
  | .undefined => none
  | .str s => datetimeParse s
  | .arr l => datetimeParse (jsToString (.arr l))
  | .obj _ => none

/-- Relational comparison of two `Date` objects (compares their time
values; any `NaN` time value makes the comparison `false`). -/
def dateCompare (cmp : Int → Int → Bool) (contextValue ruleValue : JSValue) : Bool :=
  match jsNewDate contextValue, jsNewDate ruleValue with
  | some a, some b => cmp a b
  | _, _ => false

/-- Relational comparison after `Number(...)` coercion of both sides;
`NaN` (modelled `none`) on either side makes the comparison `false`. -/
def numberCompare (cmp : Int → Int → Bool) (contextValue ruleValue : JSValue) : Bool :=
  match toNumber contextValue, toNumber ruleValue with
  | some a, some b => cmp a b
  | _, _ => false

/-- The `operatorsPredicate` dispatch table. Keys absent from the table
give `none` (in JavaScript, applying the missing entry throws). For
`in`/`nin` the source's predicate is typed over `ruleValue: string[]`; a
non-array rule value there is outside the declared signature and the model
leaves it undefined (inner `none`). -/
def operatorsPredicate (op : String) : Option (JSValue → JSValue → Option Bool) :=
  match op with
  | "in" => some (fun contextValue ruleValue =>
      match ruleValue with
      | .arr l => some (jsIncludes l contextValue)
      | _ => none)
  | "nin" => some (fun contextValue ruleValue =>
      match ruleValue with
      | .arr l => some (!(jsIncludes l contextValue))
      | _ => none)
  | "eq" => some (fun contextValue ruleValue =>
      some (strictEq contextValue ruleValue))
  | "ne" => some (fun contextValue ruleValue =>
      some (!(strictEq contextValue ruleValue)))
  | "gt" => some (fun contextValue ruleValue =>
      some (if isDate contextValue && isDate ruleValue then
        dateCompare (fun a b => a > b) contextValue ruleValue
      else
        numberCompare (fun a b => a > b) contextValue ruleValue))
  | "gte" => some (fun contextValue ruleValue =>
      some (if isDate contextValue && isDate ruleValue then
        dateCompare (fun a b => a ≥ b) contextValue ruleValue
      else
        numberCompare (fun a b => a ≥ b) contextValue ruleValue))
  | "lt" => some (fun contextValue ruleValue =>
      some (if isDate contextValue && isDate ruleValue then
        dateCompare (fun a b => a < b) contextValue ruleValue
      else
        numberCompare (fun a b => a < b) contextValue ruleValue))
  | "lte" => some (fun contextValue ruleValue =>
      some (if isDate contextValue && isDate ruleValue then
        dateCompare (fun a b => a ≤ b) contextValue ruleValue
      else
        numberCompare (fun a b => a ≤ b) contextValue ruleValue))
  | _ => none

/-- A rule descriptor. The source uses one runtime shape both for the raw
descriptor (`Record<string, unknown>`, validated by `validateRule`) and
for the typed `Rule` consumed by `isContextValid`; the model mirrors that
with `JSValue` fields (`undefined` standing for an absent key). -/
structure Rule where
  «attribute» : JSValue
  operator : JSValue
  value : JSValue

/-- Modelled from the spec: `pickValueFromObject` from `@medusajs/utils`
(not under `src/`) — "get by dotted/segmented path, return optional
value": the path is split on `.` and traversed through nested objects,
yielding `undefined` when a segment is missing or the current value is
not an object. -/
def pickFromSegments : List (List Char) → JSValue → JSValue
  | [], v => v
  | seg :: rest, v =>
    match v with
    | .obj fields => pickFromSegments rest ((fields.lookup (String.mk seg)).getD .undefined)
    | _ => .undefined

/-- Modelled from the spec: dotted-path lookup into the context object. -/
def pickValueFromObject (path : String) (object : JSValue) : JSValue :=
  pickFromSegments (splitOnChar '.' path.data) object

/-- The predicate applied to each rule by `isContextValid`:
resolve `contextValue` by path lookup, then apply the operator's entry of
`operatorsPredicate`. `none` models a thrown `TypeError` (non-string
attribute, operator missing from the table — a non-string operator is
coerced to its property-key string first). -/
def rulePredicate (context : JSValue) (rule : Rule) : Option Bool :=
  match rule.«attribute» with
  | .str attrPath =>
    let contextValue := pickValueFromObject attrPath context
    match operatorsPredicate (jsToString rule.operator) with
    | some f => f contextValue rule.value
    | none => none
  | _ => none

/-- Model of `Array.prototype.every` with a predicate that may throw
(`none`): short-circuits on the first `false`, propagates the first
throw, `true` on the empty array. -/
def arrayEvery (p : α → Option Bool) : List α → Option Bool
  | [] => some true
  | x :: xs =>
    match p x with
    | none => none
    | some false => some false
    | some true => arrayEvery p xs

/-- Model of `Array.prototype.some`: short-circuits on the first `true`,
propagates the first throw, `false` on the empty array. -/
def arraySome (p : α → Option Bool) : List α → Option Bool
  | [] => some false
  | x :: xs =>
    match p x with
    | none => none
    | some true => some true
    | some false => arraySome p xs

/-- Source `isContextValid(context, rules, options)`: chooses `rules.some` or `rules.every` over `rulePredicate` according to
`someAreValid` (default `false`). -/
def isContextValid (context : JSValue) (rules : List Rule)
    (someAreValid : Bool := false) : Option Bool :=
  if someAreValid then arraySome (rulePredicate context) rules
  else arrayEvery (rulePredicate context) rules

/-- Model of JavaScript truthiness (`!v` negated): the falsy values are
`""`, `0`, `false`, `null` and `undefined`; every array and object is
truthy (`NaN`, also falsy, has no representative in the integer model). -/
def falsy : JSValue → Bool
  | .str s => s = ""
  | .num n => n = 0
  | .bool b => !b
  | .null => true
  | .undefined => true
  | .arr _ => false
  | .obj _ => false

/-- Modelled from the spec: `isString` from `@medusajs/utils` (not under
`src/`), i.e. `typeof value === "string"`. -/
def isString : JSValue → Bool
  | .str _ => true
  | _ => false

/-- Model of `Array.isArray`. -/
def isArray : JSValue → Bool
  | .arr _ => true
  | _ => false

/-- Model of `MedusaError` (from `@medusajs/utils`): an error type tag and
a message. Only `MedusaError.Types.INVALID_DATA` (`"invalid_data"`) is
raised by this engine. -/
structure MedusaError where
  errType : String
  message : String
deriving Repr, DecidableEq

/-- The `INVALID_DATA` member of `MedusaError.Types`. -/
def INVALID_DATA : String := "invalid_data"

/-- Modelled from the spec: the `RuleOperator` enum from `@medusajs/utils`
(not under `src/`). Per the spec the operator set is `in`, `nin`, `eq`,
`ne`, `gt`, `gte`, `lt`, `lte`, "stored/normalized to lowercase"; the
source's `Rule` type (`Lowercase<keyof typeof RuleOperator>`) and its
comparisons of `RuleOperator` members against the lowercase keys of
`operatorsPredicate` confirm the enum values are these lowercase names.
`availableOperators = Object.values(RuleOperator)`. -/
def availableOperators : List String :=
  ["in", "nin", "eq", "ne", "gt", "gte", "lt", "lte"]

/-- Source `validateRule(rule)`: structural validation of a raw rule
descriptor; errors model thrown `MedusaError`s (messages as in the
source). -/
def validateRule (rule : Rule) : Except MedusaError Bool :=
  if falsy rule.«attribute» || falsy rule.operator || falsy rule.value then
    .error ⟨INVALID_DATA, "Rule must have an attribute, an operator and contextValue value"⟩
  else if !(isString rule.«attribute») then
    .error ⟨INVALID_DATA, "Rule attribute must be contextValue string"⟩
  else if !(isString rule.operator) then
    .error ⟨INVALID_DATA, "Rule operator must be contextValue string"⟩
  else if !(availableOperators.contains (jsToString rule.operator)) then
    .error ⟨INVALID_DATA, "Rule operator " ++ jsToString rule.operator ++
      " is not supported. Must be one of " ++ String.intercalate ", " availableOperators⟩
  else if strictEq rule.operator (.str "in") || strictEq rule.operator (.str "nin") then
    if !(isArray rule.value) then
      .error ⟨INVALID_DATA, "Rule value must be an array for in/nin operators"⟩
    else
      .ok true
  else if !(isString rule.value) then
    .error ⟨INVALID_DATA, "Rule value must be a string for the selected operator " ++
      jsToString rule.operator⟩
  else
    .ok true

/-- `rules.forEach(validateRule)`: stops at the first thrown error. -/
def forEachValidateRule : List Rule → Except MedusaError Unit
  | [] => .ok ()
  | r :: rs => do
    let _ ← validateRule r
    forEachValidateRule rs

/-- Source `validateRules(rules)`: validates every element, then returns
`true`. -/
def validateRules (rules : List Rule) : Except MedusaError Bool :=
  (forEachValidateRule rules).map (fun _ => true)

/-- Follows the claim's wording (for comparison with the source-derived
`operatorsPredicate`): for `gt`/`gte`/`lt`/`lte`, if both the resolved
context value and the rule value parse as valid calendar dates the parsed
dates are compared; otherwise both sides are coerced to numbers and
compared numerically, and a `NaN` coercion on either side makes the
comparison `false`. -/
def specDualCompare (cmp : Int → Int → Bool) (contextValue ruleValue : JSValue) : Bool :=
  match datetimeParse (jsToString contextValue), datetimeParse (jsToString ruleValue) with
  | some d1, some d2 => cmp d1 d2
  | _, _ =>
    match toNumber contextValue, toNumber ruleValue with
    | some n1, some n2 => cmp n1 n2
    | _, _ => false

/-- Follows the claim's wording (for comparison with the source-derived
`validateRule`): a rule descriptor is structurally valid iff attribute,
operator and value are all present and truthy, attribute and operator are
strings, the operator is one of the eight supported names, and the value
is a sequence for `in`/`nin` and a single string for every other
operator. -/
def specValidRule (r : Rule) : Bool :=
  !falsy r.«attribute» && !falsy r.operator && !falsy r.value &&
  isString r.«attribute» && isString r.operator &&
  (["in", "nin", "eq", "ne", "gt", "gte", "lt", "lte"].contains (jsToString r.operator)) &&
  (if jsToString r.operator = "in" || jsToString r.operator = "nin" then isArray r.value
   else isString r.value)

theorem arrayEvery_singleton (p : α → Option Bool) (x : α) : arrayEvery p [x] = p x := by
  cases h : p x with
  | none => simp [arrayEvery, h]
  | some b => cases b <;> simp [arrayEvery, h]

theorem arraySome_singleton (p : α → Option Bool) (x : α) : arraySome p [x] = p x := by
  cases h : p x with
  | none => simp [arraySome, h]
  | some b => cases b <;> simp [arraySome, h]

theorem arrayEvery_eq_true (p : α → Option Bool) (l : List α) :
    arrayEvery p l = some true ↔ ∀ x ∈ l, p x = some true := by
  induction l with
  | nil => simp [arrayEvery]
  | cons x xs ih =>
    cases h : p x with
    | none => simp [arrayEvery, h]
    | some b => cases b <;> simp [arrayEvery, h, ih]

theorem arraySome_eq_true (p : α → Option Bool) (l : List α)
    (hs : ∀ x ∈ l, (p x).isSome) :
    (arraySome p l = some true ↔ ∃ x ∈ l, p x = some true) := by
  induction l with
  | nil => simp [arraySome]
  | cons x xs ih =>
    cases h : p x with
    | none =>
      have := hs x (by simp)
      rw [h] at this
      simp at this
    | some b =>
      cases b with
      | false =>
        have := ih (fun y hy => hs y (List.mem_cons_of_mem _ hy))
        simp [arraySome, h, this]
      | true => simp [arraySome, h]

theorem arrayEvery_shortcircuit (p : α → Option Bool) (pre : List α) (r : α)
    (rest : List α) (hpre : ∀ x ∈ pre, p x = some true) (hr : p r = some false) :
    arrayEvery p (pre ++ r :: rest) = some false := by
  induction pre with
  | nil => simp [arrayEvery, hr]
  | cons x xs ih =>
    have hx := hpre x (by simp)
    rw [List.cons_append]
    simp only [arrayEvery, hx]
    exact ih (fun y hy => hpre y (List.mem_cons_of_mem _ hy))

theorem arraySome_shortcircuit (p : α → Option Bool) (pre : List α) (r : α)
    (rest : List α) (hpre : ∀ x ∈ pre, p x = some false) (hr : p r = some true) :
    arraySome p (pre ++ r :: rest) = some true := by
  induction pre with
  | nil => simp [arraySome, hr]
  | cons x xs ih =>
    have hx := hpre x (by simp)
    rw [List.cons_append]
    simp only [arraySome, hx]
    exact ih (fun y hy => hpre y (List.mem_cons_of_mem _ hy))

theorem arrayEvery_isSome (p : α → Option Bool) (l : List α)
    (hs : ∀ x ∈ l, (p x).isSome) : (arrayEvery p l).isSome := by
  induction l with
  | nil => simp [arrayEvery]
  | cons x xs ih =>
    cases h : p x with
    | none =>
      have := hs x (by simp)
      rw [h] at this
      simp at this
    | some b =>
      cases b with
      | false => simp [arrayEvery, h]
      | true =>
        simp only [arrayEvery, h]
        exact ih (fun y hy => hs y (List.mem_cons_of_mem _ hy))

theorem arraySome_isSome (p : α → Option Bool) (l : List α)
    (hs : ∀ x ∈ l, (p x).isSome) : (arraySome p l).isSome := by
  induction l with
  | nil => simp [arraySome]
  | cons x xs ih =>
    cases h : p x with
    | none =>
      have := hs x (by simp)
      rw [h] at this
      simp at this
    | some b =>
      cases b with
      | true => simp [arraySome, h]
      | false =>
        simp only [arraySome, h]
        exact ih (fun y hy => hs y (List.mem_cons_of_mem _ hy))

theorem isContextValid_singleton (ctx : JSValue) (r : Rule) (flag : Bool) :
    isContextValid ctx [r] flag = rulePredicate ctx r := by
  cases flag <;>
    simp [isContextValid, arrayEvery_singleton, arraySome_singleton]

theorem rulePredicate_str (ctx : JSValue) (path op : String) (v : JSValue) :
    rulePredicate ctx ⟨.str path, .str op, v⟩ =
      match operatorsPredicate op with
      | some f => f (pickValueFromObject path ctx) v
      | none => none := by
  simp [rulePredicate, jsToString]

theorem dualCompare_str (cmp : Int → Int → Bool) (cv rv : String) :
    (if isDate (.str cv) && isDate (.str rv) then dateCompare cmp (.str cv) (.str rv)
     else numberCompare cmp (.str cv) (.str rv))
      = specDualCompare cmp (.str cv) (.str rv) := by
  unfold isDate dateCompare numberCompare specDualCompare jsNewDate
  simp only [jsToString]
  cases h1 : datetimeParse cv <;> cases h2 : datetimeParse rv <;> simp [h1, h2]

theorem validateRule_payload_true (r : Rule) (b : Bool)
    (h : validateRule r = .ok b) : b = true := by
  unfold validateRule at h
  split at h
  · exact Except.noConfusion h
  split at h
  · exact Except.noConfusion h
  split at h
  · exact Except.noConfusion h
  split at h
  · exact Except.noConfusion h
  split at h
  · split at h
    · exact Except.noConfusion h
    · exact (Except.ok.injEq .. ▸ h).symm
  · split at h
    · exact Except.noConfusion h
    · exact (Except.ok.injEq .. ▸ h).symm

theorem validateRule_error_invalid (r : Rule) :
    validateRule r = .ok true ∨ ∃ msg, validateRule r = .error ⟨INVALID_DATA, msg⟩ := by
  unfold validateRule
  split
  · exact .inr ⟨_, rfl⟩
  split
  · exact .inr ⟨_, rfl⟩
  split
  · exact .inr ⟨_, rfl⟩
  split
  · exact .inr ⟨_, rfl⟩
  split
  · split
    · exact .inr ⟨_, rfl⟩
    · exact .inl rfl
  · split
    · exact .inr ⟨_, rfl⟩
    · exact .inl rfl

theorem jsToString_str (s : String) : jsToString (.str s) = s := by
  simp [jsToString]

theorem strictEq_str (a b : String) :
    strictEq (.str a) (.str b) = decide (a = b) := rfl

theorem isString_str (s : String) : isString (.str s) = true := rfl

theorem validateRule_ok_iff (r : Rule) :
    validateRule r = .ok true ↔ specValidRule r = true := by
  obtain ⟨av, ov, vv⟩ := r
  by_cases hs : isString ov = true
  case neg =>
    simp only [Bool.not_eq_true] at hs
    have hfalse : specValidRule ⟨av, ov, vv⟩ = false := by
      simp [specValidRule, hs]
    rw [hfalse]
    simp only [Bool.false_eq_true, iff_false]
    intro h
    unfold validateRule at h
    split at h
    · exact Except.noConfusion h
    split at h
    · exact Except.noConfusion h
    split at h
    · exact Except.noConfusion h
    · rename_i hguard
      exact hguard (by simp [hs])
  case pos =>
    obtain ⟨o, rfl⟩ : ∃ o, ov = .str o := by cases ov <;> simp_all [isString]
    unfold validateRule specValidRule
    simp only [jsToString_str, strictEq_str, availableOperators]
    by_cases h1 : (falsy av || falsy (JSValue.str o) || falsy vv) = true
    · rw [if_pos h1]
      constructor
      · intro h
        exact absurd h (by simp)
      · intro h
        rcases (by simpa using h1 :
            (falsy av = true ∨ falsy (JSValue.str o) = true) ∨ falsy vv = true) with (hf | hf) | hf <;>
          simp [hf] at h
    · rw [if_neg h1]
      simp only [Bool.or_eq_true, not_or, Bool.not_eq_true] at h1
      obtain ⟨⟨nfa, nfo⟩, nfv⟩ := h1
      by_cases h2 : isString av = true
      · rw [if_neg (by simp [h2])]
        rw [if_neg (by simp [isString])]
        by_cases h4 : (List.contains ["in", "nin", "eq", "ne", "gt", "gte", "lt", "lte"] o) = true
        · rw [if_neg (by simp only [h4]; simp)]
          by_cases h5 : (decide (o = "in") || decide (o = "nin")) = true
          · rw [if_pos h5, if_pos h5]
            by_cases h6 : isArray vv = true
            · rw [if_neg (by simp [h6])]
              simp [nfa, nfo, nfv, h6, isString_str]
              exact ⟨h2, by simpa using h4⟩
            · simp only [Bool.not_eq_true] at h6
              rw [if_pos (by simp [h6])]
              constructor
              · intro h
                exact absurd h (by simp)
              · intro h
                simp [h6] at h
          · rw [if_neg h5, if_neg h5]
            by_cases h6 : isString vv = true
            · rw [if_neg (by simp [h6])]
              simp [nfa, nfo, nfv, h6, isString_str]
              exact ⟨h2, by simpa using h4⟩
            · simp only [Bool.not_eq_true] at h6
              rw [if_pos (by simp [h6])]
              constructor
              · intro h
                exact absurd h (by simp)
              · intro h
                simp [h6] at h
        · simp only [Bool.not_eq_true] at h4
          rw [if_pos (by simp only [h4]; simp)]
          constructor
          · intro h
            exact absurd h (by simp)
          · intro h
            have hnd : ¬(o = "in" ∨ o = "nin" ∨ o = "eq" ∨ o = "ne" ∨ o = "gt" ∨
                o = "gte" ∨ o = "lt" ∨ o = "lte") := by
              simpa using h4
            simp only [Bool.and_eq_true] at h
            exact absurd (by simpa using h.1.2) hnd
      · simp only [Bool.not_eq_true] at h2
        rw [if_pos (by simp [h2])]
        constructor
        · intro h
          exact absurd h (by simp)
        · intro h
          simp [h2] at h


theorem forEachValidateRule_cons (r : Rule) (rs : List Rule) :
    forEachValidateRule (r :: rs) =
      match validateRule r with
      | .error e => .error e
      | .ok _ => forEachValidateRule rs := by
  cases h : validateRule r <;> (simp only [forEachValidateRule, h]; rfl)

theorem validateRules_ok_iff (rules : List Rule) :
    validateRules rules = .ok true ↔ ∀ r ∈ rules, validateRule r = .ok true := by
  induction rules with
  | nil => simp [validateRules, forEachValidateRule, Except.map]
  | cons r rs ih =>
    cases h : validateRule r with
    | error e =>
      have hrw : validateRules (r :: rs) = .error e := by
        simp [validateRules, forEachValidateRule_cons, h, Except.map]
      rw [hrw]
      simp only [List.forall_mem_cons, h]
      constructor
      · intro hc
        exact Except.noConfusion hc
      · intro hc
        exact Except.noConfusion hc.1
    | ok b =>
      have hb := validateRule_payload_true r b h
      subst hb
      have hrw : validateRules (r :: rs) = validateRules rs := by
        simp [validateRules, forEachValidateRule_cons, h]
      rw [hrw, ih]
      simp [h]

theorem validateRules_failfast (pre : List Rule) (bad : Rule) (rest : List Rule)
    (e : MedusaError) (hpre : ∀ x ∈ pre, validateRule x = .ok true)
    (hbad : validateRule bad = .error e) :
    validateRules (pre ++ bad :: rest) = .error e := by
  induction pre with
  | nil =>
    simp [validateRules, forEachValidateRule_cons, hbad, Except.map]
  | cons x xs ih =>
    have hx := hpre x (by simp)
    have hrec := ih (fun y hy => hpre y (List.mem_cons_of_mem _ hy))
    rw [List.cons_append]
    have hforEach :
        forEachValidateRule (x :: (xs ++ bad :: rest)) =
          forEachValidateRule (xs ++ bad :: rest) := by
      rw [forEachValidateRule_cons, hx]
    unfold validateRules
    rw [hforEach]
    unfold validateRules at hrec
    exact hrec

theorem validateRule_ok_operator_str (r : Rule) (h : validateRule r = .ok true) :
    ∃ o : String, r.operator = .str o ∧
      (o = "in" ∨ o = "nin" ∨ o = "eq" ∨ o = "ne" ∨ o = "gt" ∨
        o = "gte" ∨ o = "lt" ∨ o = "lte") := by
  rw [validateRule_ok_iff] at h
  obtain ⟨av, ov, vv⟩ := r
  unfold specValidRule at h
  simp only [Bool.and_eq_true] at h
  obtain ⟨o, rfl⟩ : ∃ o, ov = .str o := by
    have := h.1.1.2
    cases ov <;> simp_all [isString]
  refine ⟨o, rfl, ?_⟩
  have := h.1.2
  rw [jsToString_str] at this
  simpa using this

theorem validateRule_ok_predicate (r : Rule) (h : validateRule r = .ok true)
    (ctx : JSValue) : (rulePredicate ctx r).isSome := by
  have hiff := (validateRule_ok_iff r).mp h
  obtain ⟨o, hop, hcases⟩ := validateRule_ok_operator_str r h
  obtain ⟨av, ov, vv⟩ := r
  simp only at hop
  subst hop
  unfold specValidRule at hiff
  simp only [Bool.and_eq_true] at hiff
  obtain ⟨a, rfl⟩ : ∃ a, av = .str a := by
    have := h
    have h2 := hiff.1.1.1.1.2
    cases av <;> simp_all [isString]
  have hval := hiff.2
  rw [jsToString_str] at hval
  rcases hcases with rfl | rfl | rfl | rfl | rfl | rfl | rfl | rfl <;>
    rw [rulePredicate_str]
  · obtain ⟨l, rfl⟩ : ∃ l, vv = .arr l := by
      simp only [if_pos (by simp : ("in" = "in" || "in" = "nin") = true)] at hval
      cases vv <;> simp_all [isArray]
    rfl
  · obtain ⟨l, rfl⟩ : ∃ l, vv = .arr l := by
      simp only [if_pos (by simp : ("nin" = "in" || "nin" = "nin") = true)] at hval
      cases vv <;> simp_all [isArray]
    rfl
  · rfl
  · rfl
  · rfl
  · rfl
  · rfl
  · rfl
end Medusa

open Medusa

/-- C1: for every rule with operator `gt`, `gte`, `lt` or `lte`, evaluation
applies the dual-mode comparison: if both the resolved context value and the
rule value parse as valid calendar dates the two are compared as dates;
otherwise both are coerced to numbers and compared numerically, any `NaN`
coercion yielding `false`. Concretely, `gt` on context value "2024-01-01" vs
rule value "2023-01-01" is `true`, on "10" vs "5" is `true`, and on "abc" vs
"5" is `false`. -/
theorem C1_dual_mode_comparison :
    (∀ cv rv : String,
      isContextValid (.obj [("a", .str cv)]) [⟨.str "a", .str "gt", .str rv⟩]
          = some (specDualCompare (fun a b => a > b) (.str cv) (.str rv))
      ∧ isContextValid (.obj [("a", .str cv)]) [⟨.str "a", .str "gte", .str rv⟩]
          = some (specDualCompare (fun a b => a ≥ b) (.str cv) (.str rv))
      ∧ isContextValid (.obj [("a", .str cv)]) [⟨.str "a", .str "lt", .str rv⟩]
          = some (specDualCompare (fun a b => a < b) (.str cv) (.str rv))
      ∧ isContextValid (.obj [("a", .str cv)]) [⟨.str "a", .str "lte", .str rv⟩]
          = some (specDualCompare (fun a b => a ≤ b) (.str cv) (.str rv)))
    ∧ isContextValid (.obj [("a", .str "2024-01-01")])
        [⟨.str "a", .str "gt", .str "2023-01-01"⟩] = some true
    ∧ isContextValid (.obj [("a", .str "10")])
        [⟨.str "a", .str "gt", .str "5"⟩] = some true
    ∧ isContextValid (.obj [("a", .str "abc")])
        [⟨.str "a", .str "gt", .str "5"⟩] = some false := by
  refine ⟨fun cv rv => ⟨?_, ?_, ?_, ?_⟩, by decide, by decide, by decide⟩ <;>
    (rw [isContextValid_singleton, rulePredicate_str]
     exact congrArg some (dualCompare_str _ cv rv))

/-- C2: with `someAreValid = false` (the default) evaluation returns `true`
iff every rule individually matches (logical AND, short-circuiting at the
first failing rule); with `someAreValid = true` it returns `true` iff at
least one rule matches (logical OR, short-circuiting at the first
succeeding rule); the two-rule set of one matching and one non-matching
`eq` rule evaluates to `false` under the default and `true` under
`someAreValid = true`. -/
theorem C2_aggregation_semantics :
    (∀ (ctx : JSValue) (rules : List Rule),
      (isContextValid ctx rules = some true ↔
        ∀ r ∈ rules, rulePredicate ctx r = some true))
    ∧ (∀ (ctx : JSValue) (rules : List Rule),
        (∀ r ∈ rules, (rulePredicate ctx r).isSome) →
          (isContextValid ctx rules true = some true ↔
            ∃ r ∈ rules, rulePredicate ctx r = some true))
    ∧ (∀ (ctx : JSValue) (pre : List Rule) (r : Rule) (rest : List Rule),
        (∀ x ∈ pre, rulePredicate ctx x = some true) →
          rulePredicate ctx r = some false →
            isContextValid ctx (pre ++ r :: rest) = some false)
    ∧ (∀ (ctx : JSValue) (pre : List Rule) (r : Rule) (rest : List Rule),
        (∀ x ∈ pre, rulePredicate ctx x = some false) →
          rulePredicate ctx r = some true →
            isContextValid ctx (pre ++ r :: rest) true = some true)
    ∧ isContextValid (.obj [("a", .str "1")])
        [⟨.str "a", .str "eq", .str "1"⟩, ⟨.str "a", .str "eq", .str "2"⟩] = some false
    ∧ isContextValid (.obj [("a", .str "1")])
        [⟨.str "a", .str "eq", .str "1"⟩, ⟨.str "a", .str "eq", .str "2"⟩] true
        = some true := by
  refine ⟨?_, ?_, ?_, ?_, by decide, by decide⟩
  · intro ctx rules
    simpa [isContextValid] using arrayEvery_eq_true (rulePredicate ctx) rules
  · intro ctx rules hs
    simpa [isContextValid] using arraySome_eq_true (rulePredicate ctx) rules hs
  · intro ctx pre r rest hpre hr
    simpa [isContextValid] using
      arrayEvery_shortcircuit (rulePredicate ctx) pre r rest hpre hr
  · intro ctx pre r rest hpre hr
    simpa [isContextValid] using
      arraySome_shortcircuit (rulePredicate ctx) pre r rest hpre hr

/-- Witness for C2: the OR-aggregation conjunct applied at a concrete
singleton rule set whose single `eq` rule matches. -/
theorem C2_aggregation_semantics_witness :
    isContextValid (.obj [("a", .str "1")]) [⟨.str "a", .str "eq", .str "1"⟩] true
      = some true :=
  (C2_aggregation_semantics.2.1 (.obj [("a", .str "1")]) [⟨.str "a", .str "eq", .str "1"⟩]
      (by intro r hr; rw [List.mem_singleton] at hr; subst hr; decide)).mpr
    ⟨⟨.str "a", .str "eq", .str "1"⟩, List.mem_singleton_self _, by decide⟩

/-- C3 counterexample: evaluating the empty rule list under
`someAreValid = true` returns `false` (JavaScript `[].some` is `false`),
refuting the claim that the result is `true` regardless of the aggregation
option. -/
theorem C3_vacuous_truth_counterexample :
    isContextValid (.obj []) ([] : List Rule) true = some false ∧
    isContextValid (.obj []) ([] : List Rule) true ≠ some true :=
  ⟨rfl, by decide⟩

/-- C3 (amended): for every context, evaluating an empty rule list returns
`true` under the default aggregation (`someAreValid = false`, vacuous AND),
but returns `false` under `someAreValid = true` (vacuous OR). -/
theorem C3_empty_rules_amended :
    ∀ ctx : JSValue,
      isContextValid ctx [] = some true ∧
      isContextValid ctx [] false = some true ∧
      isContextValid ctx [] true = some false :=
  fun _ => ⟨rfl, rfl, rfl⟩

/-- C4: once `validateRules` succeeds, evaluation is total — for every
context and either aggregation flag, `isContextValid` returns a boolean
(never the modelled thrown exception); moreover a validated rule's operator
is a string with an entry in the `operatorsPredicate` dispatch table. -/
theorem C4_validated_evaluation_total :
    (∀ rules : List Rule, validateRules rules = .ok true →
      ∀ (ctx : JSValue) (someAreValid : Bool),
        (isContextValid ctx rules someAreValid).isSome)
    ∧ (∀ r : Rule, validateRule r = .ok true →
        ∃ o : String, r.operator = .str o ∧ (operatorsPredicate o).isSome) := by
  constructor
  · intro rules hval ctx someAreValid
    have hall : ∀ r ∈ rules, (rulePredicate ctx r).isSome := by
      intro r hr
      exact validateRule_ok_predicate r ((validateRules_ok_iff rules).mp hval r hr) ctx
    cases someAreValid
    · simpa [isContextValid] using arrayEvery_isSome (rulePredicate ctx) rules hall
    · simpa [isContextValid] using arraySome_isSome (rulePredicate ctx) rules hall
  · intro r h
    obtain ⟨o, ho, hcases⟩ := validateRule_ok_operator_str r h
    refine ⟨o, ho, ?_⟩
    rcases hcases with rfl | rfl | rfl | rfl | rfl | rfl | rfl | rfl <;> rfl

/-- Witness for C4: a concrete validated singleton rule list evaluates to
a boolean on a concrete context. -/
theorem C4_validated_evaluation_total_witness :
    (isContextValid (.obj []) [⟨.str "x", .str "eq", .str "y"⟩] false).isSome :=
  C4_validated_evaluation_total.1 [⟨.str "x", .str "eq", .str "y"⟩] rfl (.obj []) false

/-- C5: `validateRule` fails with an `InvalidData` error exactly when the
descriptor is structurally invalid in the claim's sense (missing/falsy
field, non-string attribute or operator, unsupported operator, or a value
whose shape does not match the operator's arity), every failure carries the
`invalid_data` error type, and on success the function returns `true`. -/
theorem C5_validateRule_characterization :
    (∀ r : Rule, validateRule r = .ok true ↔ specValidRule r = true)
    ∧ (∀ r : Rule, validateRule r = .ok true ∨
        ∃ msg, validateRule r = .error ⟨INVALID_DATA, msg⟩)
    ∧ validateRule ⟨.str "x", .str "eq", .str "y"⟩ = .ok true
    ∧ validateRule ⟨.str "x", .str "bogus", .str "y"⟩
        = .error ⟨INVALID_DATA,
            "Rule operator bogus is not supported. Must be one of in, nin, eq, ne, gt, gte, lt, lte"⟩ :=
  ⟨validateRule_ok_iff, validateRule_error_invalid, rfl, rfl⟩

/-- C6 counterexample: the operator is matched case-sensitively, so the
uppercase variant "EQ" is rejected as unsupported, refuting the claim that
`validateRule` accepts case variants of the supported operators. -/
theorem C6_case_insensitive_counterexample :
    validateRule ⟨.str "x", .str "EQ", .str "y"⟩
        = .error ⟨INVALID_DATA,
            "Rule operator EQ is not supported. Must be one of in, nin, eq, ne, gt, gte, lt, lte"⟩
    ∧ validateRule ⟨.str "x", .str "EQ", .str "y"⟩ ≠ .ok true := by
  refine ⟨rfl, ?_⟩
  intro h
  exact Except.noConfusion ((rfl :
      validateRule ⟨.str "x", .str "EQ", .str "y"⟩ = .error ⟨INVALID_DATA,
        "Rule operator EQ is not supported. Must be one of in, nin, eq, ne, gt, gte, lt, lte"⟩).symm.trans h)

/-- C6 (amended): operator matching is case-sensitive — a rule passes
`validateRule` only when its operator is exactly one of the eight lowercase
operator names, and `validateRule` rejects every operator string outside
that set (hence every operator differing from a supported one only in
letter case, such as "EQ" or "In"); concretely "eq"/"in" are accepted and
"EQ"/"In" are rejected as unsupported. -/
theorem C6_operator_case_sensitive :
    (∀ r : Rule, validateRule r = .ok true →
      ∃ o : String, r.operator = .str o ∧ availableOperators.contains o = true)
    ∧ (∀ (a op : String) (v : JSValue), availableOperators.contains op = false →
        validateRule ⟨.str a, .str op, v⟩ ≠ .ok true)
    ∧ validateRule ⟨.str "x", .str "eq", .str "y"⟩ = .ok true
    ∧ validateRule ⟨.str "x", .str "in", .arr [.str "a"]⟩ = .ok true
    ∧ validateRule ⟨.str "x", .str "EQ", .str "y"⟩
        = .error ⟨INVALID_DATA,
            "Rule operator EQ is not supported. Must be one of in, nin, eq, ne, gt, gte, lt, lte"⟩
    ∧ validateRule ⟨.str "x", .str "In", .arr [.str "a"]⟩
        = .error ⟨INVALID_DATA,
            "Rule operator In is not supported. Must be one of in, nin, eq, ne, gt, gte, lt, lte"⟩ := by
  refine ⟨?_, ?_, rfl, rfl, rfl, rfl⟩
  · intro r h
    obtain ⟨o, ho, hcases⟩ := validateRule_ok_operator_str r h
    refine ⟨o, ho, ?_⟩
    rcases hcases with rfl | rfl | rfl | rfl | rfl | rfl | rfl | rfl <;> rfl
  · intro a op v hop h
    obtain ⟨o, ho, hcases⟩ := validateRule_ok_operator_str ⟨.str a, .str op, v⟩ h
    simp only at ho
    obtain rfl : op = o := JSValue.str.inj ho
    rcases hcases with rfl | rfl | rfl | rfl | rfl | rfl | rfl | rfl <;>
      exact absurd hop (by decide)

/-- Witness for C6 (amended): the rejection conjunct applied at the
concrete case-variant operator "EQ", and the acceptance conjunct applied
at a concrete validated rule with operator "eq". -/
theorem C6_operator_case_sensitive_witness :
    validateRule ⟨.str "x", .str "EQ", .str "y"⟩ ≠ .ok true ∧
    ∃ o : String, (Rule.mk (.str "x") (.str "eq") (.str "y")).operator = .str o ∧
      availableOperators.contains o = true :=
  ⟨C6_operator_case_sensitive.2.1 "x" "EQ" (.str "y") (by decide),
   C6_operator_case_sensitive.1 ⟨.str "x", .str "eq", .str "y"⟩ rfl⟩

/-- C7: a single `in` rule evaluates to `true` iff the resolved context
value is a member of the rule's value sequence, and the `nin` rule on the
same inputs is the exact logical negation of the `in` result. -/
theorem C7_in_nin_membership :
    ∀ (ctx : JSValue) (path : String) (l : List JSValue),
      isContextValid ctx [⟨.str path, .str "in", .arr l⟩]
          = some (jsIncludes l (pickValueFromObject path ctx))
      ∧ isContextValid ctx [⟨.str path, .str "nin", .arr l⟩]
          = some (!(jsIncludes l (pickValueFromObject path ctx))) := by
  intro ctx path l
  constructor <;> (rw [isContextValid_singleton, rulePredicate_str]; rfl)

/-- C8: `validateRules` validates the elements in order, propagates the
first failure without evaluating later elements (the universally
quantified tail), and returns `true` iff every element passes; concretely
a list `[valid, invalid, valid]` fails with the second element's error. -/
theorem C8_validateRules_fail_fast :
    (∀ rules : List Rule,
      validateRules rules = .ok true ↔ ∀ r ∈ rules, validateRule r = .ok true)
    ∧ (∀ (pre : List Rule) (bad : Rule) (rest : List Rule) (e : MedusaError),
        (∀ x ∈ pre, validateRule x = .ok true) → validateRule bad = .error e →
          validateRules (pre ++ bad :: rest) = .error e)
    ∧ validateRules [⟨.str "x", .str "eq", .str "y"⟩, ⟨.str "x", .str "bogus", .str "y"⟩,
        ⟨.str "x", .str "eq", .str "z"⟩]
        = .error ⟨INVALID_DATA,
            "Rule operator bogus is not supported. Must be one of in, nin, eq, ne, gt, gte, lt, lte"⟩ :=
  ⟨validateRules_ok_iff, validateRules_failfast, rfl⟩

/-- Witness for C8: the fail-fast conjunct applied at a concrete
`[valid, invalid, invalid-tail]` list — the tail element is itself invalid
but never examined, and the reported error is the second element's. -/
theorem C8_validateRules_fail_fast_witness :
    validateRules [⟨.str "x", .str "eq", .str "y"⟩, ⟨.str "x", .str "bogus", .str "y"⟩,
        ⟨.str "x", .str "nin", .str "z"⟩]
        = .error ⟨INVALID_DATA,
            "Rule operator bogus is not supported. Must be one of in, nin, eq, ne, gt, gte, lt, lte"⟩ :=
  C8_validateRules_fail_fast.2.1 [⟨.str "x", .str "eq", .str "y"⟩]
    ⟨.str "x", .str "bogus", .str "y"⟩ [⟨.str "x", .str "nin", .str "z"⟩] _
    (by intro x hx; rw [List.mem_singleton] at hx; subst hx; rfl) rfl

/-- C9: an `in` rule with an empty value sequence never matches and a
`nin` rule with an empty value sequence always matches, for every context
and attribute. -/
theorem C9_empty_sequence :
    ∀ (ctx : JSValue) (path : String),
      isContextValid ctx [⟨.str path, .str "in", .arr []⟩] = some false
      ∧ isContextValid ctx [⟨.str path, .str "nin", .arr []⟩] = some true := by
  intro ctx path
  constructor <;> (rw [isContextValid_singleton, rulePredicate_str]; rfl)

/-- C10: for `in`/`nin` rules with a well-formed attribute, the only
constraint `validateRule` places on the value is that it is an array: the
empty array is accepted and so are arrays with non-string elements. -/
theorem C10_in_nin_value_array_only :
    (∀ (a op : String) (v : JSValue), a ≠ "" → (op = "in" ∨ op = "nin") →
      (validateRule ⟨.str a, .str op, v⟩ = .ok true ↔ ∃ l, v = .arr l))
    ∧ validateRule ⟨.str "x", .str "in", .arr []⟩ = .ok true
    ∧ validateRule ⟨.str "x", .str "nin", .arr [.num 1, .bool true, .null]⟩ = .ok true := by
  refine ⟨?_, rfl, rfl⟩
  intro a op v ha hop
  rw [validateRule_ok_iff]
  unfold specValidRule
  rcases hop with rfl | rfl <;>
    (cases v <;> simp [falsy, isString, isArray, jsToString_str, ha, strictEq])

/-- Witness for C10: the array-only characterization applied at a concrete
attribute, operator and array value. -/
theorem C10_in_nin_value_array_only_witness :
    validateRule ⟨.str "x", .str "in", .arr [.str "a", .str "b"]⟩ = .ok true :=
  (C10_in_nin_value_array_only.1 "x" "in" (.arr [.str "a", .str "b"])
      (by decide) (.inl rfl)).mpr ⟨[.str "a", .str "b"], rfl⟩
